import Mathlib

/-!
Verification of the Slide2Thesis pipeline mechanics.

Python strings are modelled as lists of characters (type PyStr below), and
the file system as explicit functions from paths to contents.  Every
definition is a shallow embedding of the corresponding Python function of
the repository; the AI backends, PubMed and the typesetting binaries are
modelled as oracle parameters, exactly as the specification treats them
(external collaborators behind a capability interface).
-/

/-- Python strings are modelled as lists of characters. -/
abbrev PyStr := List Char

/-- ASCII lowering of one character, the model of Python str.lower applied
characterwise (all strings handled by the pipeline are ASCII). -/
def pyLower (c : Char) : Char := Char.toLower c

/-- Lowering of a whole string, Python str.lower. -/
def lowerL (s : PyStr) : PyStr := s.map pyLower

/-- Model of os.path.join for a non-empty directory without trailing slash:
the directory, a slash, the file name. -/
def pathJoin (dir name : PyStr) : PyStr := dir ++ '/' :: name

namespace ThesisCompiler

/-- Canonical chapter order, field chapter_order of ThesisCompiler
(src/src/processors/thesis_compiler.py line 26). -/
def chapter_order : List PyStr :=
  ["introduction".data, "related works".data, "methods".data,
   "results".data, "conclusions".data, "appendix".data]

/-- Model of chapter_type.lower().replace(' ', '_'). -/
def slug (t : PyStr) : PyStr :=
  (lowerL t).map (fun c => if c = ' ' then '_' else c)

/-- Loop body of ThesisCompiler.get_chapter_files (thesis_compiler.py lines
38 to 51): start from the with_figures name, fall back to the cited name if
that file does not exist, then to the plain name, and append the final
candidate only when it exists. -/
def chapterStep (ex : PyStr → Bool) (dir : PyStr) (acc : List PyStr) (t : PyStr) :
    List PyStr :=
  let f0 := pathJoin dir (slug t ++ "_chapter_with_figures.md".data)
  let f1 := if ex f0 then f0 else pathJoin dir (slug t ++ "_chapter_cited.md".data)
  let f2 := if ex f1 then f1 else pathJoin dir (slug t ++ "_chapter.md".data)
  if ex f2 then acc ++ [f2] else acc

/-- Model of ThesisCompiler.get_chapter_files: walk chapter_order and apply
the per-category resolution, where ex is the file-existence predicate of the
working directory. -/
def get_chapter_files (ex : PyStr → Bool) (dir : PyStr) : List PyStr :=
  chapter_order.foldl (chapterStep ex dir) []

/-- Resolution of one category, written from the words of the spec: return
the with_figures variant if it exists, otherwise the cited variant if it
exists, otherwise the plain variant if it exists, otherwise nothing. -/
def resolveVariantSpec (ex : PyStr → Bool) (dir t : PyStr) : Option PyStr :=
  let wf := pathJoin dir (slug t ++ "_chapter_with_figures.md".data)
  let cf := pathJoin dir (slug t ++ "_chapter_cited.md".data)
  let pf := pathJoin dir (slug t ++ "_chapter.md".data)
  if ex wf then some wf else if ex cf then some cf else if ex pf then some pf else none

/-- Chapter-file selection written from the words of the spec: for each
category in the canonical order, the most processed variant available, a
category with no variant contributing nothing. -/
def chapterFilesSpec (ex : PyStr → Bool) (dir : PyStr) : List PyStr :=
  chapter_order.filterMap (resolveVariantSpec ex dir)

theorem chapterStep_eq (ex : PyStr → Bool) (dir : PyStr) (acc : List PyStr)
    (t : PyStr) :
    chapterStep ex dir acc t = acc ++ (resolveVariantSpec ex dir t).toList := by
  unfold chapterStep resolveVariantSpec
  by_cases h0 : ex (pathJoin dir (slug t ++ "_chapter_with_figures.md".data)) <;>
    by_cases h1 : ex (pathJoin dir (slug t ++ "_chapter_cited.md".data)) <;>
      by_cases h2 : ex (pathJoin dir (slug t ++ "_chapter.md".data)) <;>
        simp [h0, h1, h2]

theorem foldl_chapterStep (ex : PyStr → Bool) (dir : PyStr) :
    ∀ (l : List PyStr) (acc : List PyStr),
      l.foldl (chapterStep ex dir) acc = acc ++ l.filterMap (resolveVariantSpec ex dir) := by
  intro l
  induction l with
  | nil => intro acc; simp
  | cons t rest ih =>
    intro acc
    simp only [List.foldl_cons, List.filterMap_cons]
    rw [chapterStep_eq, ih]
    cases resolveVariantSpec ex dir t <;> simp

/-- Claim C1: for every state of the working directory, the chapter-file
selection of the compiler walks the categories in the fixed canonical order
and, per category, returns the with_figures variant if it exists, otherwise
the cited variant if it exists, otherwise the plain variant if it exists; a
category with no existing variant contributes nothing and causes no error. -/
theorem spec2proof_C1 (ex : PyStr → Bool) (dir : PyStr) :
    get_chapter_files ex dir = chapterFilesSpec ex dir := by
  unfold get_chapter_files chapterFilesSpec
  exact foldl_chapterStep ex dir chapter_order []

end ThesisCompiler

/-- Association lookup, the model of a Python dict access where keys are
unique; returns the value stored at the first matching key. -/
def lookupL {α β : Type} [DecidableEq α] : List (α × β) → α → Option β
  | [], _ => none
  | (k2, v) :: rest, k => if k2 = k then some v else lookupL rest k

theorem lookupL_eq_none {α β : Type} [DecidableEq α] :
    ∀ (m : List (α × β)) (k : α), lookupL m k = none ↔ k ∉ m.map Prod.fst := by
  intro m k
  induction m with
  | nil => simp [lookupL]
  | cons p rest ih =>
    obtain ⟨k2, v⟩ := p
    by_cases h : k2 = k <;> simp [lookupL, h, ih, Ne.symm]

theorem lookupL_mem {α β : Type} [DecidableEq α] :
    ∀ (m : List (α × β)) (k : α) (v : β), lookupL m k = some v → (k, v) ∈ m := by
  intro m
  induction m with
  | nil => intro k v h; simp [lookupL] at h
  | cons p rest ih =>
    intro k v h
    obtain ⟨k2, v2⟩ := p
    by_cases hk : k2 = k
    · subst hk
      simp [lookupL] at h
      simp [h]
    · simp [lookupL, hk] at h
      exact List.mem_cons_of_mem _ (ih k v h)

/-- Numeric value of a decimal digit character. -/
def digitVal (c : Char) : Nat := c.toNat - '0'.toNat

/-- Fuel-indexed decimal rendering of a positive natural number, most
significant digit first. -/
def natDecAux : Nat → Nat → List Char
  | 0, _ => []
  | fuel + 1, n => if n = 0 then [] else natDecAux fuel (n / 10) ++ [Nat.digitChar (n % 10)]

/-- Decimal rendering of a natural number, the model of Python str(int). -/
def natDec (n : Nat) : List Char := if n = 0 then ['0'] else natDecAux n n

/-- Decimal parsing, the left inverse used to prove natDec injective. -/
def parseDec (s : List Char) : Nat := s.foldl (fun acc c => acc * 10 + digitVal c) 0

theorem parseDec_append_digit (xs : List Char) (c : Char) :
    parseDec (xs ++ [c]) = parseDec xs * 10 + digitVal c := by
  simp [parseDec, List.foldl_append]

theorem digitVal_digitChar (d : Nat) (h : d < 10) :
    digitVal (Nat.digitChar d) = d := by
  interval_cases d <;> rfl

theorem parseDec_natDecAux : ∀ (fuel n : Nat), n ≤ fuel →
    parseDec (natDecAux fuel n) = n := by
  intro fuel
  induction fuel with
  | zero =>
    intro n hn
    interval_cases n
    rfl
  | succ fuel ih =>
    intro n hn
    by_cases h0 : n = 0
    · subst h0; rfl
    · have hdiv : n / 10 ≤ fuel := by
        have hlt : n / 10 < n := Nat.div_lt_self (Nat.pos_of_ne_zero h0) (by norm_num)
        omega
      rw [show natDecAux (fuel + 1) n = natDecAux fuel (n / 10) ++ [Nat.digitChar (n % 10)] by
            simp [natDecAux, h0]]
      rw [parseDec_append_digit, ih (n / 10) hdiv,
          digitVal_digitChar (n % 10) (Nat.mod_lt n (by omega))]
      omega

theorem parseDec_natDec (n : Nat) : parseDec (natDec n) = n := by
  by_cases h : n = 0
  · subst h; rfl
  · rw [show natDec n = natDecAux n n by simp [natDec, h]]
    exact parseDec_natDecAux n n le_rfl

theorem natDec_inj {a b : Nat} (h : natDec a = natDec b) : a = b := by
  have := congrArg parseDec h
  rwa [parseDec_natDec, parseDec_natDec] at this

/-- Fuel-indexed search for the first suffix whose rendered candidate is not
in the used set, the model of the while loops of
CitationGenerator._export_bibtex and FigureGenerator._update_chapter_figures. -/
def freshFrom {α : Type} [DecidableEq α] (used : List α) (mk : Nat → α) :
    Nat → Nat → Nat
  | 0, n => n
  | fuel + 1, n => if mk n ∈ used then freshFrom used mk fuel (n + 1) else n

theorem freshFrom_spec {α : Type} [DecidableEq α] (used : List α) (mk : Nat → α) :
    ∀ (fuel n : Nat), (∃ k, k < fuel ∧ mk (n + k) ∉ used) →
      mk (freshFrom used mk fuel n) ∉ used ∧
      n ≤ freshFrom used mk fuel n ∧
      ∀ m, n ≤ m → m < freshFrom used mk fuel n → mk m ∈ used := by
  intro fuel
  induction fuel with
  | zero =>
    intro n h
    obtain ⟨k, hk, _⟩ := h
    omega
  | succ fuel ih =>
    intro n h
    by_cases hmem : mk n ∈ used
    · have hnext : ∃ k, k < fuel ∧ mk (n + 1 + k) ∉ used := by
        obtain ⟨k, hk, hout⟩ := h
        match k, hk, hout with
        | 0, _, hout => exact absurd hmem hout
        | k + 1, hk, hout => exact ⟨k, by omega, by rwa [show n + 1 + k = n + (k + 1) by omega]⟩
      obtain ⟨h1, h2, h3⟩ := ih (n + 1) hnext
      rw [show freshFrom used mk (fuel + 1) n = freshFrom used mk fuel (n + 1) by
            simp [freshFrom, hmem]]
      refine ⟨h1, by omega, ?_⟩
      intro m hm1 hm2
      rcases Nat.eq_or_lt_of_le hm1 with heq | hlt
      · rwa [← heq]
      · exact h3 m (by omega) hm2
    · rw [show freshFrom used mk (fuel + 1) n = n by simp [freshFrom, hmem]]
      exact ⟨hmem, le_rfl, by omega⟩

theorem exists_fresh_of_inj {α : Type} [DecidableEq α] (used : List α) (mk : Nat → α)
    (hinj : ∀ a b, mk a = mk b → a = b) (n : Nat) :
    ∃ k, k < used.length + 1 ∧ mk (n + k) ∉ used := by
  by_contra hcon
  push_neg at hcon
  have hmap : ∀ k ∈ Finset.range (used.length + 1), mk (n + k) ∈ used.toFinset := by
    intro k hk
    rw [List.mem_toFinset]
    exact hcon k (Finset.mem_range.mp hk)
  have hcard : used.toFinset.card < (Finset.range (used.length + 1)).card := by
    rw [Finset.card_range]
    exact Nat.lt_succ_of_le (List.toFinset_card_le used)
  obtain ⟨a, _, b, _, hab, heq⟩ :=
    Finset.exists_ne_map_eq_of_card_lt_of_maps_to hcard hmap
  exact hab (by have := hinj _ _ heq; omega)

theorem fresh_ok {α : Type} [DecidableEq α] (used : List α) (mk : Nat → α)
    (hinj : ∀ a b, mk a = mk b → a = b) (start : Nat) :
    mk (freshFrom used mk (used.length + 1) start) ∉ used ∧
    start ≤ freshFrom used mk (used.length + 1) start ∧
    ∀ m, start ≤ m → m < freshFrom used mk (used.length + 1) start → mk m ∈ used :=
  freshFrom_spec used mk (used.length + 1) start (exists_fresh_of_inj used mk hinj start)

namespace FigureGenerator

/-- Slug character of the figure base identifier: characters outside the
lowercase letters and digits become a dash (the regex substitution at
src/src/processors/figure_generator.py line 572). -/
def slugChar (c : Char) : Char :=
  if ('a' ≤ c ∧ c ≤ 'z') ∨ ('0' ≤ c ∧ c ≤ '9') then c else '-'

/-- Base identifier of a figure file name, figure_generator.py line 572. -/
def baseId (filename : PyStr) : PyStr := (lowerL filename).map slugChar

/-- Registry key combining chapter and file name, figure_generator.py line
575. -/
def figKey (chapterName filename : PyStr) : PyStr := chapterName ++ ':' :: filename

/-- Identifier assignment of FigureGenerator._update_chapter_figures, lines
571 to 597: reuse the stored identifier when the chapter and file name pair
already has one; otherwise build a candidate from the three-character
chapter prefix and the base identifier, disambiguate against all stored
identifiers with the first free numeric suffix, and record the result.  The
registry global_figure_ids is an insertion-ordered association list. -/
def assignFigureId (reg : List (PyStr × PyStr)) (chapterName filename : PyStr) :
    PyStr × List (PyStr × PyStr) :=
  match lookupL reg (figKey chapterName filename) with
  | some fid => (fid, reg)
  | none =>
    let chapPre := lowerL (chapterName.take 3)
    let candidate := chapPre ++ '-' :: baseId filename
    let vals := reg.map Prod.snd
    let fid :=
      if candidate ∈ vals then
        candidate ++ '-' ::
          natDec (freshFrom vals (fun n => candidate ++ '-' :: natDec n) (vals.length + 1) 1)
      else candidate
    (fid, reg ++ [(figKey chapterName filename, fid)])

/-- One figure-processing run: the registry obtained by serving a sequence
of chapter and file name requests starting from the empty registry created
in FigureGenerator.__init__. -/
def runAssignments (reqs : List (PyStr × PyStr)) : List (PyStr × PyStr) :=
  reqs.foldl (fun reg r => (assignFigureId reg r.1 r.2).2) []

/-- Registry invariant: keys are pairwise distinct and assigned identifiers
are pairwise distinct. -/
def RegInv (reg : List (PyStr × PyStr)) : Prop :=
  (reg.map Prod.fst).Nodup ∧ (reg.map Prod.snd).Nodup

theorem suffix_mk_inj (candidate : PyStr) :
    ∀ a b, candidate ++ '-' :: natDec a = candidate ++ '-' :: natDec b → a = b := by
  intro a b h
  have h2 := List.append_cancel_left h
  injection h2 with _ h3
  exact natDec_inj h3

theorem assignFigureId_fresh (reg : List (PyStr × PyStr)) (c f : PyStr)
    (hnew : lookupL reg (figKey c f) = none) :
    (assignFigureId reg c f).1 ∉ reg.map Prod.snd := by
  unfold assignFigureId
  rw [hnew]
  simp only
  by_cases hc : (lowerL (c.take 3) ++ '-' :: baseId f) ∈ reg.map Prod.snd
  · simp only [hc, if_true]
    exact (fresh_ok (reg.map Prod.snd) _ (suffix_mk_inj _) 1).1
  · simp only [hc, if_false]
    simp

theorem assignFigureId_snd_of_none (reg : List (PyStr × PyStr)) (c f : PyStr)
    (hnew : lookupL reg (figKey c f) = none) :
    (assignFigureId reg c f).2 = reg ++ [(figKey c f, (assignFigureId reg c f).1)] := by
  unfold assignFigureId
  rw [hnew]

theorem assignFigureId_preserves (reg : List (PyStr × PyStr)) (c f : PyStr)
    (hinv : RegInv reg) : RegInv (assignFigureId reg c f).2 := by
  cases hlk : lookupL reg (figKey c f) with
  | some fid =>
    unfold assignFigureId
    rw [hlk]
    exact hinv
  | none =>
    rw [assignFigureId_snd_of_none reg c f hlk]
    obtain ⟨hkeys, hvals⟩ := hinv
    constructor
    · rw [List.map_append]
      simp only [List.map_cons, List.map_nil]
      rw [List.nodup_append]
      refine ⟨hkeys, List.nodup_singleton _, ?_⟩
      simp only [List.disjoint_singleton]
      exact (lookupL_eq_none reg (figKey c f)).mp hlk
    · rw [List.map_append]
      simp only [List.map_cons, List.map_nil]
      rw [List.nodup_append]
      refine ⟨hvals, List.nodup_singleton _, ?_⟩
      simp only [List.disjoint_singleton]
      exact assignFigureId_fresh reg c f hlk

theorem runAssignments_inv (reqs : List (PyStr × PyStr)) :
    RegInv (runAssignments reqs) := by
  have key : ∀ (l : List (PyStr × PyStr)) (reg : List (PyStr × PyStr)), RegInv reg →
      RegInv (l.foldl (fun reg r => (assignFigureId reg r.1 r.2).2) reg) := by
    intro l
    induction l with
    | nil => intro reg h; exact h
    | cons r rest ih =>
      intro reg h
      exact ih _ (assignFigureId_preserves reg r.1 r.2 h)
  exact key reqs [] ⟨List.nodup_nil, List.nodup_nil⟩

/-- Claim C2: within one figure-processing run the registry maps each
chapter and file name pair to exactly one identifier that never changes
once assigned.  Part one: a pair already present is served the stored
identifier and the registry is unchanged (so a second reference within the
same chapter reuses the assigned identifier and no identifier is ever
rewritten).  Part two: a freshly assigned identifier is distinct from every
identifier already in the registry.  Part three: in the registry of any
run, two distinct chapters referencing the same file name hold distinct
identifiers. -/
theorem spec2proof_C2 :
    (∀ (reg : List (PyStr × PyStr)) (c f fid : PyStr),
        lookupL reg (figKey c f) = some fid → assignFigureId reg c f = (fid, reg)) ∧
    (∀ (reg : List (PyStr × PyStr)) (c f : PyStr),
        lookupL reg (figKey c f) = none →
        (assignFigureId reg c f).1 ∉ reg.map Prod.snd) ∧
    (∀ (reqs : List (PyStr × PyStr)) (c1 c2 f fid1 fid2 : PyStr),
        lookupL (runAssignments reqs) (figKey c1 f) = some fid1 →
        lookupL (runAssignments reqs) (figKey c2 f) = some fid2 →
        c1 ≠ c2 → fid1 ≠ fid2) := by
  refine ⟨?_, assignFigureId_fresh, ?_⟩
  · intro reg c f fid hlk
    unfold assignFigureId
    rw [hlk]
  · intro reqs c1 c2 f fid1 fid2 h1 h2 hne
    obtain ⟨hkeys, hvals⟩ := runAssignments_inv reqs
    have hm1 := lookupL_mem _ _ _ h1
    have hm2 := lookupL_mem _ _ _ h2
    intro heq
    have hpair : (figKey c1 f, fid1) = (figKey c2 f, fid2) :=
      List.inj_on_of_nodup_map hvals hm1 hm2 heq
    have hkey : figKey c1 f = figKey c2 f := congrArg Prod.fst hpair
    exact hne (List.append_cancel_right hkey)

/-- Witness for claim C2: a run in which the introduction and results
chapters both reference fig.png; the two pairs are served the distinct
identifiers int-fig-png and res-fig-png. -/
theorem spec2proof_C2_witness :
    "int-fig-png".data ≠ "res-fig-png".data :=
  spec2proof_C2.2.2 [("introduction".data, "fig.png".data), ("results".data, "fig.png".data)]
    "introduction".data "results".data "fig.png".data
    "int-fig-png".data "res-fig-png".data (by decide) (by decide) (by decide)

end FigureGenerator

namespace CitationGenerator

/-- Python str.replace for a one-character pattern: every occurrence of the
character is replaced by the replacement string. -/
def replaceChar (c : Char) (r : PyStr) (s : PyStr) : PyStr :=
  s.flatMap (fun x => if x = c then r else [x])

/-- Title escape chain of CitationGenerator._format_bibtex_entry
(src/citation_generator.py lines 463 to 472): backslash first, then each of
the nine special characters. -/
def titleEscape (s : PyStr) : PyStr :=
  let s1 := replaceChar '\\' "\\textbackslash".data s
  let s2 := replaceChar '&' ['\\', '&'] s1
  let s3 := replaceChar '%' ['\\', '%'] s2
  let s4 := replaceChar '$' ['\\', '$'] s3
  let s5 := replaceChar '#' ['\\', '#'] s4
  let s6 := replaceChar '_' ['\\', '_'] s5
  let s7 := replaceChar '{' ['\\', '{'] s6
  let s8 := replaceChar '}' ['\\', '}'] s7
  let s9 := replaceChar '~' "\\textasciitilde".data s8
  replaceChar '^' "\\textasciicircum".data s9

/-- Journal escape chain of CitationGenerator._format_bibtex_entry (lines
474 to 481): backslash first, then ampersand through closing brace; the
chain stops there, with no tilde or circumflex step. -/
def journalEscape (s : PyStr) : PyStr :=
  let s1 := replaceChar '\\' "\\textbackslash".data s
  let s2 := replaceChar '&' ['\\', '&'] s1
  let s3 := replaceChar '%' ['\\', '%'] s2
  let s4 := replaceChar '$' ['\\', '$'] s3
  let s5 := replaceChar '#' ['\\', '#'] s4
  let s6 := replaceChar '_' ['\\', '_'] s5
  let s7 := replaceChar '{' ['\\', '{'] s6
  replaceChar '}' ['\\', '}'] s7

/-- The nine special characters the spec lists for escaping. -/
def specials9 : List Char := ['&', '%', '$', '#', '_', '{', '}', '~', '^']

/-- The seven special characters actually covered by the journal chain. -/
def specials7 : List Char := ['&', '%', '$', '#', '_', '{', '}']

/-- Scanning check that every occurrence of a character of sp is
immediately preceded by a backslash; prev is the character before the
current position. -/
def wellEscapedAux (sp : List Char) : Char → List Char → Bool
  | _, [] => true
  | prev, c :: rest => (if c ∈ sp then prev == '\\' else true) && wellEscapedAux sp c rest

/-- A string is well escaped with respect to sp when no character of sp
occurs in it without a backslash immediately before it. -/
def wellEscaped (sp : List Char) (l : List Char) : Bool := wellEscapedAux sp 'a' l

theorem replaceChar_append (c : Char) (r : PyStr) (a b : PyStr) :
    replaceChar c r (a ++ b) = replaceChar c r a ++ replaceChar c r b := by
  simp [replaceChar]

theorem titleEscape_append (a b : PyStr) :
    titleEscape (a ++ b) = titleEscape a ++ titleEscape b := by
  simp only [titleEscape, replaceChar_append]

theorem journalEscape_append (a b : PyStr) :
    journalEscape (a ++ b) = journalEscape a ++ journalEscape b := by
  simp only [journalEscape, replaceChar_append]

theorem wellEscapedAux_run (sp : List Char) :
    ∀ (a : List Char), (∀ c ∈ a, c ∉ sp) → ∀ (prev : Char) (l : List Char),
      wellEscapedAux sp prev (a ++ l) = wellEscapedAux sp (a.getLastD prev) l := by
  intro a
  induction a with
  | nil => intro _ prev l; simp [List.getLastD]
  | cons c a ih =>
    intro h prev l
    have hc : c ∉ sp := h c (List.mem_cons_self c a)
    have ha : ∀ x ∈ a, x ∉ sp := fun x hx => h x (List.mem_cons_of_mem c hx)
    simp only [List.cons_append]
    rw [show wellEscapedAux sp prev (c :: (a ++ l)) =
          ((if c ∈ sp then prev == '\\' else true) && wellEscapedAux sp c (a ++ l)) from rfl]
    rw [if_neg hc, Bool.true_and, ih ha c l, List.getLastD_cons]

theorem wellEscapedAux_pair (sp : List Char) (hbs : '\\' ∉ sp) (c prev : Char)
    (l : List Char) :
    wellEscapedAux sp prev ('\\' :: c :: l) = wellEscapedAux sp c l := by
  rw [show wellEscapedAux sp prev ('\\' :: c :: l) =
        ((if '\\' ∈ sp then prev == '\\' else true) && wellEscapedAux sp '\\' (c :: l)) from rfl]
  rw [if_neg hbs, Bool.true_and]
  rw [show wellEscapedAux sp '\\' (c :: l) =
        ((if c ∈ sp then (('\\' : Char) == '\\') else true) && wellEscapedAux sp c l) from rfl]
  have hcond : (if c ∈ sp then (('\\' : Char) == '\\') else true) = true := by
    by_cases h : c ∈ sp <;> simp [h]
  rw [hcond, Bool.true_and]

theorem titleEscape_aux_ok : ∀ (s : PyStr) (prev : Char),
    wellEscapedAux specials9 prev (titleEscape s) = true := by
  intro s
  induction s with
  | nil => intro prev; rfl
  | cons x s ih =>
    intro prev
    rw [show (x :: s) = [x] ++ s from rfl, titleEscape_append]
    by_cases h1 : x = '\\'
    · subst h1
      rw [show titleEscape ['\\'] = "\\textbackslash".data from by decide]
      rw [wellEscapedAux_run specials9 "\\textbackslash".data (by decide) prev (titleEscape s)]
      exact ih _
    · by_cases h2 : x = '&'
      · subst h2
        rw [show titleEscape ['&'] = ['\\', '&'] from by decide]
        simp only [List.cons_append, List.nil_append]
        rw [wellEscapedAux_pair specials9 (by decide) '&' prev (titleEscape s)]
        exact ih _
      · by_cases h3 : x = '%'
        · subst h3
          rw [show titleEscape ['%'] = ['\\', '%'] from by decide]
          simp only [List.cons_append, List.nil_append]
          rw [wellEscapedAux_pair specials9 (by decide) '%' prev (titleEscape s)]
          exact ih _
        · by_cases h4 : x = '$'
          · subst h4
            rw [show titleEscape ['$'] = ['\\', '$'] from by decide]
            simp only [List.cons_append, List.nil_append]
            rw [wellEscapedAux_pair specials9 (by decide) '$' prev (titleEscape s)]
            exact ih _
          · by_cases h5 : x = '#'
            · subst h5
              rw [show titleEscape ['#'] = ['\\', '#'] from by decide]
              simp only [List.cons_append, List.nil_append]
              rw [wellEscapedAux_pair specials9 (by decide) '#' prev (titleEscape s)]
              exact ih _
            · by_cases h6 : x = '_'
              · subst h6
                rw [show titleEscape ['_'] = ['\\', '_'] from by decide]
                simp only [List.cons_append, List.nil_append]
                rw [wellEscapedAux_pair specials9 (by decide) '_' prev (titleEscape s)]
                exact ih _
              · by_cases h7 : x = '{'
                · subst h7
                  rw [show titleEscape ['{'] = ['\\', '{'] from by decide]
                  simp only [List.cons_append, List.nil_append]
                  rw [wellEscapedAux_pair specials9 (by decide) '{' prev (titleEscape s)]
                  exact ih _
                · by_cases h8 : x = '}'
                  · subst h8
                    rw [show titleEscape ['}'] = ['\\', '}'] from by decide]
                    simp only [List.cons_append, List.nil_append]
                    rw [wellEscapedAux_pair specials9 (by decide) '}' prev (titleEscape s)]
                    exact ih _
                  · by_cases h9 : x = '~'
                    · subst h9
                      rw [show titleEscape ['~'] = "\\textasciitilde".data from by decide]
                      rw [wellEscapedAux_run specials9 "\\textasciitilde".data (by decide)
                            prev (titleEscape s)]
                      exact ih _
                    · by_cases h10 : x = '^'
                      · subst h10
                        rw [show titleEscape ['^'] = "\\textasciicircum".data from by decide]
                        rw [wellEscapedAux_run specials9 "\\textasciicircum".data (by decide)
                              prev (titleEscape s)]
                        exact ih _
                      · have hx : titleEscape [x] = [x] := by
                          simp [titleEscape, replaceChar, h1, h2, h3, h4, h5, h6, h7, h8, h9, h10]
                        rw [hx]
                        rw [wellEscapedAux_run specials9 [x] ?_ prev (titleEscape s)]
                        · exact ih _
                        · intro c hc
                          simp only [List.mem_singleton] at hc
                          subst hc
                          intro hmem
                          simp [specials9, h2, h3, h4, h5, h6, h7, h8, h9, h10] at hmem

theorem journalEscape_aux_ok : ∀ (s : PyStr) (prev : Char),
    wellEscapedAux specials7 prev (journalEscape s) = true := by
  intro s
  induction s with
  | nil => intro prev; rfl
  | cons x s ih =>
    intro prev
    rw [show (x :: s) = [x] ++ s from rfl, journalEscape_append]
    by_cases h1 : x = '\\'
    · subst h1
      rw [show journalEscape ['\\'] = "\\textbackslash".data from by decide]
      rw [wellEscapedAux_run specials7 "\\textbackslash".data (by decide) prev (journalEscape s)]
      exact ih _
    · by_cases h2 : x = '&'
      · subst h2
        rw [show journalEscape ['&'] = ['\\', '&'] from by decide]
        simp only [List.cons_append, List.nil_append]
        rw [wellEscapedAux_pair specials7 (by decide) '&' prev (journalEscape s)]
        exact ih _
      · by_cases h3 : x = '%'
        · subst h3
          rw [show journalEscape ['%'] = ['\\', '%'] from by decide]
          simp only [List.cons_append, List.nil_append]
          rw [wellEscapedAux_pair specials7 (by decide) '%' prev (journalEscape s)]
          exact ih _
        · by_cases h4 : x = '$'
          · subst h4
            rw [show journalEscape ['$'] = ['\\', '$'] from by decide]
            simp only [List.cons_append, List.nil_append]
            rw [wellEscapedAux_pair specials7 (by decide) '$' prev (journalEscape s)]
            exact ih _
          · by_cases h5 : x = '#'
            · subst h5
              rw [show journalEscape ['#'] = ['\\', '#'] from by decide]
              simp only [List.cons_append, List.nil_append]
              rw [wellEscapedAux_pair specials7 (by decide) '#' prev (journalEscape s)]
              exact ih _
            · by_cases h6 : x = '_'
              · subst h6
                rw [show journalEscape ['_'] = ['\\', '_'] from by decide]
                simp only [List.cons_append, List.nil_append]
                rw [wellEscapedAux_pair specials7 (by decide) '_' prev (journalEscape s)]
                exact ih _
              · by_cases h7 : x = '{'
                · subst h7
                  rw [show journalEscape ['{'] = ['\\', '{'] from by decide]
                  simp only [List.cons_append, List.nil_append]
                  rw [wellEscapedAux_pair specials7 (by decide) '{' prev (journalEscape s)]
                  exact ih _
                · by_cases h8 : x = '}'
                  · subst h8
                    rw [show journalEscape ['}'] = ['\\', '}'] from by decide]
                    simp only [List.cons_append, List.nil_append]
                    rw [wellEscapedAux_pair specials7 (by decide) '}' prev (journalEscape s)]
                    exact ih _
                  · have hx : journalEscape [x] = [x] := by
                      simp [journalEscape, replaceChar, h1, h2, h3, h4, h5, h6, h7, h8]
                    rw [hx]
                    rw [wellEscapedAux_run specials7 [x] ?_ prev (journalEscape s)]
                    · exact ih _
                    · intro c hc
                      simp only [List.mem_singleton] at hc
                      subst hc
                      intro hmem
                      simp [specials7, h2, h3, h4, h5, h6, h7, h8] at hmem

/-- Counterexample to claim C8 as stated: the journal escape chain leaves a
tilde from the source metadata untouched, so it stays without a preceding
backslash in the formatted entry. -/
theorem spec2proof_C8_counterexample :
    journalEscape ['~'] = ['~'] ∧ wellEscaped specials9 (journalEscape ['~']) = false := by
  decide

/-- Claim C8 as amended: in the escaped title every occurrence of the nine
special characters ampersand, percent, dollar, hash, underscore, the two
braces, tilde and circumflex is immediately preceded by a backslash; in the
escaped journal this holds for the seven characters through the braces,
while tilde and circumflex are not escaped there. -/
theorem spec2proof_C8 :
    (∀ s : PyStr, wellEscaped specials9 (titleEscape s) = true) ∧
    (∀ s : PyStr, wellEscaped specials7 (journalEscape s) = true) :=
  ⟨fun s => titleEscape_aux_ok s 'a', fun s => journalEscape_aux_ok s 'a'⟩

end CitationGenerator

/-- Python whitespace characters recognized by str.strip. -/
def isPySpace (c : Char) : Bool :=
  c = ' ' || c = '\t' || c = '\n' || c = '\r' || c = '\x0b' || c = '\x0c'

/-- Model of Python str.strip: drop whitespace on both ends. -/
def pyStrip (l : PyStr) : PyStr :=
  ((l.dropWhile isPySpace).reverse.dropWhile isPySpace).reverse

/-- Model of Python str.join over a list of strings. -/
def intercalateL (sep : PyStr) : List PyStr → PyStr
  | [] => []
  | [x] => x
  | x :: rest => x ++ sep ++ intercalateL sep rest

theorem nodup_append_single {α : Type} (l : List α) (a : α) (hl : l.Nodup)
    (ha : a ∉ l) : (l ++ [a]).Nodup := by
  rw [List.nodup_append]
  exact ⟨hl, List.nodup_singleton a, by simp only [List.disjoint_singleton]; exact ha⟩

namespace CitationGenerator

/-- Paper record assembled by CitationGenerator._fetch_paper_details; the
sentence field is present on papers produced during citation generation. -/
structure Paper where
  pmid : PyStr
  title : PyStr
  authors : List PyStr
  journal : PyStr
  year : PyStr
  doi : PyStr
  sentence : Option PyStr
deriving DecidableEq

/-- Characters kept by the final key cleanup, the regex class a to z and 0
to 9 of citation_generator.py line 440. -/
def keyChar (c : Char) : Bool := ('a' ≤ c && c ≤ 'z') || ('0' ≤ c && c ≤ '9')

/-- Model of CitationGenerator._generate_bibtex_key (lines 417 to 440).
The fold parameter models the unicodedata NFKD normalization followed by
combining-mark removal, which is the identity on ASCII input. -/
def generate_bibtex_key (fold : PyStr → PyStr) (paper : Paper) : PyStr :=
  let key :=
    match paper.authors with
    | a :: _ => fold (lowerL (a.takeWhile (fun c => c ≠ ','))) ++ paper.year
    | [] => "pmid".data ++ paper.pmid ++ paper.year
  key.filter keyChar

/-- Fuel-indexed removal of HTML and XML tags, the regex substitution at
citation_generator.py line 460: a tag is an opening angle bracket, one or
more characters other than a closing angle bracket, then a closing angle
bracket; unmatched opening brackets stay. -/
def stripTagsGo : Nat → PyStr → PyStr
  | 0, s => s
  | fuel + 1, s =>
    match s with
    | [] => []
    | c :: rest =>
      if c = '<' then
        let middle := rest.takeWhile (fun x => x ≠ '>')
        let after := rest.dropWhile (fun x => x ≠ '>')
        if middle ≠ [] ∧ after ≠ [] then stripTagsGo fuel after.tail
        else c :: stripTagsGo fuel rest
      else c :: stripTagsGo fuel rest

/-- Tag removal with enough fuel to consume the whole string. -/
def stripTags (s : PyStr) : PyStr := stripTagsGo s.length s

/-- Model of CitationGenerator._format_bibtex_entry (lines 442 to 492):
author list cleanup with the ten-author threshold, tag removal and escaping
on the title, escaping on the journal, and assembly of the entry text. -/
def format_bibtex_entry (key : PyStr) (paper : Paper) : PyStr :=
  let authors := (paper.authors.map pyStrip).filter (fun a => a ≠ [])
  let authorStr :=
    if authors.length > 10 then
      intercalateL " and ".data (authors.take 5) ++ " and others".data
    else if authors = [] then "Unknown Author".data
    else intercalateL " and ".data authors
  let title := titleEscape (stripTags paper.title)
  let journal := journalEscape paper.journal
  let doiField :=
    if paper.doi ≠ "Not available".data then
      "  doi = \x7b".data ++ paper.doi ++ "\x7d,\n".data
    else []
  "@article\x7b".data ++ key ++ ",\n  author = \x7b".data ++ authorStr ++
    "\x7d,\n  title = \x7b".data ++ title ++ "\x7d,\n  journal = \x7b".data ++ journal ++
    "\x7d,\n  year = \x7b".data ++ paper.year ++ "\x7d,\n".data ++ doiField ++
    "  pmid = \x7b".data ++ paper.pmid ++ "\x7d\n\x7d".data

/-- Key de-duplication loop of CitationGenerator._export_bibtex (lines 393
to 398): while the key is used, append the next counter value, starting at
one. -/
def uniquify (used : List PyStr) (base : PyStr) : PyStr :=
  if base ∈ used then
    base ++ natDec (freshFrom used (fun n => base ++ natDec n) (used.length + 1) 1)
  else base

/-- State threaded through the export loop: formatted entries, the sentence
to keys map and the used-keys set (insertion ordered). -/
structure ExportState where
  entries : List PyStr
  citationKeys : List (PyStr × List PyStr)
  usedKeys : List PyStr

/-- Map update of _export_bibtex lines 406 to 409: create the sentence
entry when absent, then append the key to its list. -/
def addKeyFor (m : List (PyStr × List PyStr)) (s k : PyStr) :
    List (PyStr × List PyStr) :=
  if lookupL m s = none then m ++ [(s, [k])]
  else m.map (fun p => if p.1 = s then (p.1, p.2 ++ [k]) else p)

/-- One iteration of the export loop (lines 390 to 409). -/
def exportStep (fold : PyStr → PyStr) (st : ExportState) (paper : Paper) : ExportState :=
  let key := uniquify st.usedKeys (generate_bibtex_key fold paper)
  { entries := st.entries ++ [format_bibtex_entry key paper]
    citationKeys :=
      match paper.sentence with
      | some s => addKeyFor st.citationKeys s key
      | none => st.citationKeys
    usedKeys := st.usedKeys ++ [key] }

/-- Model of CitationGenerator._export_bibtex: fold the export step over
the papers starting from the empty state; entries is the persisted content
of references.bib and citationKeys is the returned sentence-to-keys map. -/
def export_bibtex (fold : PyStr → PyStr) (papers : List Paper) : ExportState :=
  papers.foldl (exportStep fold) ⟨[], [], []⟩

/-- First of two papers whose naive keys collide on doe2021. -/
def paperDoe1 : Paper :=
  { pmid := "111".data, title := "First paper".data, authors := ["Doe, J".data],
    journal := "Nature".data, year := "2021".data, doi := "Not available".data,
    sentence := some "Sentence one.".data }

/-- Second of two papers whose naive keys collide on doe2021. -/
def paperDoe2 : Paper :=
  { pmid := "222".data, title := "Second paper".data, authors := ["Doe, A".data],
    journal := "Science".data, year := "2021".data, doi := "Not available".data,
    sentence := some "Sentence two.".data }

theorem uniquify_notMem (used : List PyStr) (base : PyStr) :
    uniquify used base ∉ used := by
  by_cases h : base ∈ used
  · rw [show uniquify used base
        = base ++ natDec (freshFrom used (fun n => base ++ natDec n) (used.length + 1) 1) from by
          simp [uniquify, h]]
    exact (fresh_ok used (fun n => base ++ natDec n)
      (fun a b hh => natDec_inj (List.append_cancel_left hh)) 1).1
  · rw [show uniquify used base = base from by simp [uniquify, h]]
    exact h

theorem uniquify_spec (used : List PyStr) (base : PyStr) (h : base ∈ used) :
    ∃ m, 1 ≤ m ∧ uniquify used base = base ++ natDec m ∧ (base ++ natDec m) ∉ used ∧
      ∀ j, 1 ≤ j → j < m → (base ++ natDec j) ∈ used := by
  obtain ⟨h1, h2, h3⟩ := fresh_ok used (fun n => base ++ natDec n)
    (fun a b hh => natDec_inj (List.append_cancel_left hh)) 1
  exact ⟨freshFrom used (fun n => base ++ natDec n) (used.length + 1) 1, h2,
    by simp [uniquify, h], h1, h3⟩

theorem export_usedKeys_nodup (fold : PyStr → PyStr) (papers : List Paper) :
    ((export_bibtex fold papers).usedKeys).Nodup := by
  suffices key : ∀ (ps : List Paper) (st : ExportState), st.usedKeys.Nodup →
      ((ps.foldl (exportStep fold) st).usedKeys).Nodup by
    exact key papers ⟨[], [], []⟩ List.nodup_nil
  intro ps
  induction ps with
  | nil => intro st h; exact h
  | cons p ps ih =>
    intro st h
    apply ih
    exact nodup_append_single st.usedKeys _ h (uniquify_notMem st.usedKeys _)

/-- Claim C4: persisted bibliography keys of a run are pairwise distinct;
when the deterministic base key is already used, the persisted key carries
the smallest positive suffix whose rendering is not yet used; two papers
that both compute doe2021 are persisted as doe2021 and doe20211. -/
theorem spec2proof_C4 :
    (∀ (fold : PyStr → PyStr) (papers : List Paper),
        ((export_bibtex fold papers).usedKeys).Nodup) ∧
    (∀ (used : List PyStr) (base : PyStr), base ∈ used →
        ∃ m, 1 ≤ m ∧ uniquify used base = base ++ natDec m ∧
          (base ++ natDec m) ∉ used ∧
          ∀ j, 1 ≤ j → j < m → (base ++ natDec j) ∈ used) ∧
    (export_bibtex (fun s => s) [paperDoe1, paperDoe2]).usedKeys
      = ["doe2021".data, "doe20211".data] := by
  refine ⟨export_usedKeys_nodup, uniquify_spec, ?_⟩
  decide

/-- Witness for claim C4: the de-duplication clause applied to the used set
holding doe2021 and the colliding base key doe2021. -/
theorem spec2proof_C4_witness :
    ∃ m, 1 ≤ m ∧ uniquify ["doe2021".data] "doe2021".data = "doe2021".data ++ natDec m ∧
      ("doe2021".data ++ natDec m) ∉ ["doe2021".data] ∧
      ∀ j, 1 ≤ j → j < m → ("doe2021".data ++ natDec j) ∈ ["doe2021".data] :=
  spec2proof_C4.2.1 ["doe2021".data] "doe2021".data (by decide)

theorem lookupL_append_one {α β : Type} [DecidableEq α] (s0 : α) (v0 : β) :
    ∀ (m : List (α × β)) (s : α),
      lookupL (m ++ [(s0, v0)]) s =
        match lookupL m s with
        | some v => some v
        | none => if s0 = s then some v0 else none := by
  intro m
  induction m with
  | nil => intro s; simp [lookupL]
  | cons p rest ih =>
    intro s
    obtain ⟨k2, v2⟩ := p
    by_cases h : k2 = s
    · simp [lookupL, h]
    · simp only [List.cons_append]
      rw [show lookupL ((k2, v2) :: (rest ++ [(s0, v0)])) s
            = if k2 = s then some v2 else lookupL (rest ++ [(s0, v0)]) s from rfl]
      rw [show lookupL ((k2, v2) :: rest) s
            = if k2 = s then some v2 else lookupL rest s from rfl]
      rw [if_neg h, if_neg h, ih s]

theorem lookupL_map_addKey (s0 k0 : PyStr) :
    ∀ (m : List (PyStr × List PyStr)) (s : PyStr),
      lookupL (m.map (fun p => if p.1 = s0 then (p.1, p.2 ++ [k0]) else p)) s =
        if s0 = s then (lookupL m s).map (fun ks => ks ++ [k0]) else lookupL m s := by
  intro m
  induction m with
  | nil => intro s; by_cases h : s0 = s <;> simp [lookupL, h]
  | cons p rest ih =>
    intro s
    obtain ⟨k2, v2⟩ := p
    by_cases h2 : k2 = s0
    · subst h2
      rw [List.map_cons]
      rw [show (if (k2, v2).1 = k2 then ((k2, v2).1, (k2, v2).2 ++ [k0]) else (k2, v2))
            = (k2, v2 ++ [k0]) from by simp]
      by_cases h3 : k2 = s
      · subst h3
        rw [show lookupL ((k2, v2 ++ [k0])
              :: rest.map (fun p => if p.1 = k2 then (p.1, p.2 ++ [k0]) else p)) k2
              = if k2 = k2 then some (v2 ++ [k0])
                else lookupL (rest.map (fun p => if p.1 = k2 then (p.1, p.2 ++ [k0]) else p)) k2
              from rfl]
        rw [show lookupL ((k2, v2) :: rest) k2
              = if k2 = k2 then some v2 else lookupL rest k2 from rfl]
        rw [if_pos rfl, if_pos rfl, if_pos rfl]
        rfl
      · rw [show lookupL ((k2, v2 ++ [k0])
              :: rest.map (fun p => if p.1 = k2 then (p.1, p.2 ++ [k0]) else p)) s
              = if k2 = s then some (v2 ++ [k0])
                else lookupL (rest.map (fun p => if p.1 = k2 then (p.1, p.2 ++ [k0]) else p)) s
              from rfl]
        rw [show lookupL ((k2, v2) :: rest) s
              = if k2 = s then some v2 else lookupL rest s from rfl]
        rw [if_neg h3, if_neg h3, ih s, if_neg h3, if_neg h3]
    · rw [List.map_cons]
      rw [show (if (k2, v2).1 = s0 then ((k2, v2).1, (k2, v2).2 ++ [k0]) else (k2, v2))
            = (k2, v2) from by simp [h2]]
      by_cases h3 : k2 = s
      · subst h3
        have hne : ¬ s0 = k2 := fun hh => h2 hh.symm
        rw [show lookupL ((k2, v2)
              :: rest.map (fun p => if p.1 = s0 then (p.1, p.2 ++ [k0]) else p)) k2
              = if k2 = k2 then some v2
                else lookupL (rest.map (fun p => if p.1 = s0 then (p.1, p.2 ++ [k0]) else p)) k2
              from rfl]
        rw [show lookupL ((k2, v2) :: rest) k2
              = if k2 = k2 then some v2 else lookupL rest k2 from rfl]
        rw [if_pos rfl, if_pos rfl, if_neg hne]
      · rw [show lookupL ((k2, v2)
              :: rest.map (fun p => if p.1 = s0 then (p.1, p.2 ++ [k0]) else p)) s
              = if k2 = s then some v2
                else lookupL (rest.map (fun p => if p.1 = s0 then (p.1, p.2 ++ [k0]) else p)) s
              from rfl]
        rw [show lookupL ((k2, v2) :: rest) s
              = if k2 = s then some v2 else lookupL rest s from rfl]
        rw [if_neg h3, if_neg h3, ih s]

theorem exportStep_covered (fold : PyStr → PyStr) (st : ExportState) (p : Paper)
    (h : ∀ s ks, lookupL st.citationKeys s = some ks → ∀ k ∈ ks, k ∈ st.usedKeys) :
    ∀ s ks, lookupL (exportStep fold st p).citationKeys s = some ks →
      ∀ k ∈ ks, k ∈ (exportStep fold st p).usedKeys := by
  intro s ks hlk k hk
  have husd : (exportStep fold st p).usedKeys
      = st.usedKeys ++ [uniquify st.usedKeys (generate_bibtex_key fold p)] := rfl
  rw [husd]
  cases hsent : p.sentence with
  | none =>
    have hck : (exportStep fold st p).citationKeys = st.citationKeys := by
      simp [exportStep, hsent]
    rw [hck] at hlk
    exact List.mem_append_left _ (h s ks hlk k hk)
  | some s0 =>
    have hck : (exportStep fold st p).citationKeys
        = addKeyFor st.citationKeys s0 (uniquify st.usedKeys (generate_bibtex_key fold p)) := by
      simp [exportStep, hsent]
    rw [hck] at hlk
    unfold addKeyFor at hlk
    by_cases h0 : lookupL st.citationKeys s0 = none
    · rw [if_pos h0, lookupL_append_one] at hlk
      cases h1 : lookupL st.citationKeys s with
      | some ks1 =>
        rw [h1] at hlk
        simp only at hlk
        obtain rfl := Option.some.inj hlk
        exact List.mem_append_left _ (h s _ h1 k hk)
      | none =>
        rw [h1] at hlk
        simp only at hlk
        by_cases h2 : s0 = s
        · rw [if_pos h2] at hlk
          obtain rfl := Option.some.inj hlk
          simp only [List.mem_singleton] at hk
          subst hk
          exact List.mem_append_right _ (List.mem_singleton_self _)
        · rw [if_neg h2] at hlk
          exact Option.noConfusion hlk
    · rw [if_neg h0, lookupL_map_addKey] at hlk
      by_cases h2 : s0 = s
      · rw [if_pos h2] at hlk
        cases h1 : lookupL st.citationKeys s with
        | none =>
          rw [h1] at hlk
          exact Option.noConfusion hlk
        | some ks2 =>
          rw [h1] at hlk
          simp only [Option.map_some'] at hlk
          obtain rfl := Option.some.inj hlk
          rcases List.mem_append.mp hk with hk2 | hk2
          · exact List.mem_append_left _ (h s ks2 h1 k hk2)
          · simp only [List.mem_singleton] at hk2
            subst hk2
            exact List.mem_append_right _ (List.mem_singleton_self _)
      · rw [if_neg h2] at hlk
        exact List.mem_append_left _ (h s ks hlk k hk)

/-- Claim C10: every key in the sentence-to-keys map returned by the
bibliography export, the exact map the chapter rewrite consumes, is the key
of an entry persisted to references.bib in the same run (the used-keys set
and the entries list grow in lockstep), so no chapter marker can reference
a key absent from the persisted bibliography. -/
theorem spec2proof_C10 (fold : PyStr → PyStr) (papers : List Paper) :
    ∀ s ks, lookupL (export_bibtex fold papers).citationKeys s = some ks →
      ∀ k ∈ ks, k ∈ (export_bibtex fold papers).usedKeys := by
  suffices key : ∀ (ps : List Paper) (st : ExportState),
      (∀ s ks, lookupL st.citationKeys s = some ks → ∀ k ∈ ks, k ∈ st.usedKeys) →
      ∀ s ks, lookupL ((ps.foldl (exportStep fold) st).citationKeys) s = some ks →
        ∀ k ∈ ks, k ∈ (ps.foldl (exportStep fold) st).usedKeys by
    refine key papers ⟨[], [], []⟩ ?_
    intro s ks hlk
    simp [lookupL] at hlk
  intro ps
  induction ps with
  | nil => intro st h; exact h
  | cons p ps ih =>
    intro st h
    exact ih (exportStep fold st p) (exportStep_covered fold st p h)

/-- Witness for claim C10: in the one-paper run the key doe2021 mapped to
the analysed sentence is listed among the persisted keys. -/
theorem spec2proof_C10_witness :
    "doe2021".data ∈ (export_bibtex (fun s => s) [paperDoe1]).usedKeys :=
  spec2proof_C10 (fun s => s) [paperDoe1] "Sentence one.".data ["doe2021".data]
    (by decide) "doe2021".data (by decide)

end CitationGenerator

namespace CitationGenerator

/-- The negative lookahead of the rewrite regex (citation_generator.py
lines 530 and 538): the text after the match begins, after optional
whitespace, with an opening bracket and an at sign. -/
def lookaheadCited (l : PyStr) : Bool :=
  match l.dropWhile isPySpace with
  | '[' :: '@' :: _ => true
  | _ => false

/-- Model of re.sub with count one for a literal nonempty pattern guarded by
the negative lookahead: scan left to right, replace the first occurrence of
the needle whose following text does not trigger the lookahead, leave
everything else unchanged. -/
def subFirst (needle repl : PyStr) : PyStr → PyStr
  | [] => []
  | c :: rest =>
    if needle.isPrefixOf (c :: rest) && !lookaheadCited ((c :: rest).drop needle.length) then
      repl ++ (c :: rest).drop needle.length
    else c :: subFirst needle repl rest

/-- Position i of the haystack carries an occurrence of the needle not
followed by optional whitespace and an opening bracket with an at sign. -/
def eligibleAt (needle hay : PyStr) (i : Nat) : Prop :=
  needle.isPrefixOf (hay.drop i) = true ∧
  lookaheadCited ((hay.drop i).drop needle.length) = false

/-- Punctuation list of _update_chapter_citations line 517. -/
def punctuation_marks : List Char := ['.', ',', ';']

/-- Ending punctuation detection of lines 518 to 523: the first mark of the
list the sentence ends with. -/
def endingPunct (sentence : PyStr) : Option Char :=
  punctuation_marks.find? (fun p => sentence.getLast? = some p)

/-- Composite citation marker of lines 512 to 514: all keys prefixed with
an at sign, joined with a semicolon and space, wrapped in brackets. -/
def joinKeysMarker (keys : List PyStr) : PyStr :=
  '[' :: (intercalateL "; ".data (keys.map (fun k => '@' :: k)) ++ [']'])

/-- Splicing of one analysed sentence (lines 516 to 542): with ending
punctuation the replacement re-joins the clipped sentence, a non-breaking
space, the marker and the punctuation; without it the marker is appended
after a non-breaking space. -/
def annotateSentence (text sentence : PyStr) (keys : List PyStr) : PyStr :=
  match endingPunct sentence with
  | some p =>
    subFirst sentence (sentence.dropLast ++ "&nbsp;".data ++ joinKeysMarker keys ++ [p]) text
  | none =>
    subFirst sentence (sentence ++ "&nbsp;".data ++ joinKeysMarker keys) text

/-- Model of CitationGenerator._update_chapter_citations (lines 494 to
548): fold over the analysed sentences, stripping each and splicing its
marker when the sentence has resolved keys in the map. -/
def update_chapter_citations (text : PyStr) (sentences : List PyStr)
    (bibtexKeys : List (PyStr × List PyStr)) : PyStr :=
  sentences.foldl (fun updated sentRaw =>
    match lookupL bibtexKeys (pyStrip sentRaw) with
    | some keys => annotateSentence updated (pyStrip sentRaw) keys
    | none => updated) text

theorem eligibleAt_cons_succ (needle : PyStr) (c : Char) (rest : PyStr) (j : Nat) :
    eligibleAt needle (c :: rest) (j + 1) ↔ eligibleAt needle rest j := by
  unfold eligibleAt
  rw [List.drop_succ_cons]

theorem subFirst_spec (needle repl : PyStr) (hne : needle ≠ []) :
    ∀ (hay : PyStr),
      (∃ i, eligibleAt needle hay i ∧ (∀ j, j < i → ¬ eligibleAt needle hay j) ∧
        subFirst needle repl hay = hay.take i ++ repl ++ hay.drop (i + needle.length)) ∨
      ((∀ j, ¬ eligibleAt needle hay j) ∧ subFirst needle repl hay = hay) := by
  intro hay
  induction hay with
  | nil =>
    right
    refine ⟨?_, rfl⟩
    rintro j ⟨hpre, _⟩
    rw [List.drop_nil] at hpre
    rw [List.isPrefixOf_iff_prefix] at hpre
    exact hne (List.prefix_nil.mp hpre)
  | cons c rest ih =>
    by_cases hcond :
        (needle.isPrefixOf (c :: rest) && !lookaheadCited ((c :: rest).drop needle.length)) = true
    · left
      refine ⟨0, ?_, ?_, ?_⟩
      · rw [Bool.and_eq_true, Bool.not_eq_true'] at hcond
        exact ⟨by simpa using hcond.1, by simpa using hcond.2⟩
      · intro j hj
        omega
      · rw [show subFirst needle repl (c :: rest)
              = repl ++ (c :: rest).drop needle.length from by
            rw [subFirst, if_pos hcond]]
        simp
    · have hstep : subFirst needle repl (c :: rest) = c :: subFirst needle repl rest := by
        rw [subFirst, if_neg hcond]
      have hnot0 : ¬ eligibleAt needle (c :: rest) 0 := by
        rintro ⟨hpre, hlook⟩
        apply hcond
        rw [Bool.and_eq_true, Bool.not_eq_true']
        exact ⟨by simpa using hpre, by simpa using hlook⟩
      rcases ih with ⟨i, he, hmin, heq⟩ | ⟨hall, heq⟩
      · left
        refine ⟨i + 1, (eligibleAt_cons_succ needle c rest i).mpr he, ?_, ?_⟩
        · intro j hj
          cases j with
          | zero => exact hnot0
          | succ j =>
            rw [eligibleAt_cons_succ]
            exact hmin j (by omega)
        · rw [hstep, heq, List.take_succ_cons,
              show i + 1 + needle.length = (i + needle.length) + 1 from by omega,
              List.drop_succ_cons]
          rfl
      · right
        refine ⟨?_, by rw [hstep, heq]⟩
        intro j
        cases j with
        | zero => exact hnot0
        | succ j =>
          rw [eligibleAt_cons_succ]
          exact hall j

/-- Counterexample to claim C3 as stated: a sentence without ending
punctuation that already carries a non-breaking-space joined marker is
re-annotated, because the lookahead guard only recognizes markers preceded
by plain whitespace, not the non-breaking join the rewrite itself emits. -/
theorem spec2proof_C3_counterexample :
    update_chapter_citations "The quick fox&nbsp;[@smith2020]".data
        ["The quick fox".data] [("The quick fox".data, ["smith2020".data])]
      = "The quick fox&nbsp;[@smith2020]&nbsp;[@smith2020]".data := by
  decide

/-- Claim C3 as amended: the rewrite splices exactly one composite marker
per analysed sentence, at the first occurrence whose following text is not
optional whitespace before a bracketed at sign (part one, the full
characterization of the guarded single-count substitution: one splice at
the first eligible position with everything else unchanged, or no change at
all when no position is eligible); a sentence ending in a period with key
smith2020 is rewritten with the marker joined by a non-breaking space
before the period (part two); but a marker joined with the non-breaking
entity is not recognized by the guard, so a sentence already annotated that
way can be annotated again. -/
theorem spec2proof_C3 :
    (∀ (needle repl : PyStr), needle ≠ [] → ∀ (hay : PyStr),
      (∃ i, eligibleAt needle hay i ∧ (∀ j, j < i → ¬ eligibleAt needle hay j) ∧
        subFirst needle repl hay = hay.take i ++ repl ++ hay.drop (i + needle.length)) ∨
      ((∀ j, ¬ eligibleAt needle hay j) ∧ subFirst needle repl hay = hay)) ∧
    update_chapter_citations "Prior work shows this claim.".data
        ["Prior work shows this claim.".data]
        [("Prior work shows this claim.".data, ["smith2020".data])]
      = "Prior work shows this claim&nbsp;[@smith2020].".data := by
  refine ⟨fun needle repl hne => subFirst_spec needle repl hne, ?_⟩
  decide

/-- Witness for claim C3: the substitution characterization applied to the
needle ab, replacement X and haystack zab, which splices at position one. -/
theorem spec2proof_C3_witness :
    (∃ i, eligibleAt "ab".data "zab".data i ∧
      (∀ j, j < i → ¬ eligibleAt "ab".data "zab".data j) ∧
      subFirst "ab".data "X".data "zab".data
        = "zab".data.take i ++ "X".data ++ "zab".data.drop (i + "ab".data.length)) ∨
    ((∀ j, ¬ eligibleAt "ab".data "zab".data j) ∧
      subFirst "ab".data "X".data "zab".data = "zab".data) :=
  spec2proof_C3.1 "ab".data "X".data (by decide) "zab".data

end CitationGenerator

namespace CitationGenerator

/-- One chapter task of process_chapters: either a raised exception with a
message, or the pair of optional citation analysis data (the analysed
sentences) and the papers found for the chapter, as returned by
_process_single_chapter_task. -/
abbrev ChapterTask := PyStr → Except PyStr (Option (List PyStr) × List Paper)

/-- Aggregation body of CitationGenerator.process_chapters (lines 64 to
84, concurrent path): a raised per-chapter exception is caught, logged and
excluded; a chapter with citation data contributes its data and papers. -/
def collectStep (task : ChapterTask)
    (acc : List (PyStr × List PyStr) × List Paper) (f : PyStr) :
    List (PyStr × List PyStr) × List Paper :=
  match task f with
  | .error _ => acc
  | .ok (cd, ps) =>
    match cd with
    | some data => (acc.1 ++ [(f, data)], acc.2 ++ ps)
    | none => acc

/-- Aggregate of all chapter tasks: the citation data per chapter and the
concatenated papers (all_papers of line 51). -/
def collectResults (files : List PyStr) (task : ChapterTask) :
    List (PyStr × List PyStr) × List Paper :=
  files.foldl (collectStep task) ([], [])

/-- Result of CitationGenerator.process_chapters (lines 41 to 115): false
when no chapter files exist (line 47) or when no papers were collected
(line 86); otherwise the run exports the bibliography, rewrites the
chapters and returns true. -/
def process_chapters (files : List PyStr) (task : ChapterTask) : Bool :=
  if files = [] then false
  else if (collectResults files task).2 = [] then false
  else true

/-- Claim C5: the citation stage returns false exactly when there are no
chapter files at all or zero papers were collected across the whole run;
and per-chapter exceptions are excluded from the aggregate without failing
the stage: the aggregate over all chapters equals the aggregate over the
chapters whose task did not raise. -/
theorem spec2proof_C5 (files : List PyStr) (task : ChapterTask) :
    (process_chapters files task = false ↔
      files = [] ∨ (collectResults files task).2 = []) ∧
    collectResults files task
      = collectResults (files.filter (fun f => (task f).isOk)) task := by
  constructor
  · unfold process_chapters
    by_cases h1 : files = []
    · simp [h1]
    · by_cases h2 : (collectResults files task).2 = [] <;> simp [h1, h2]
  · unfold collectResults
    have key : ∀ (l : List PyStr) (acc : List (PyStr × List PyStr) × List Paper),
        l.foldl (collectStep task) acc
          = (l.filter (fun f => (task f).isOk)).foldl (collectStep task) acc := by
      intro l
      induction l with
      | nil => intro acc; rfl
      | cons f rest ih =>
        intro acc
        cases htf : task f with
        | error e =>
          have hok : (task f).isOk = false := by rw [htf]; rfl
          rw [List.foldl_cons, List.filter_cons, hok]
          rw [show collectStep task acc f = acc from by rw [collectStep, htf]]
          exact ih acc
        | ok pr =>
          have hok : (task f).isOk = true := by rw [htf]; rfl
          rw [List.foldl_cons, List.filter_cons, hok]
          simp only [if_true]
          rw [List.foldl_cons]
          exact ih (collectStep task acc f)
    exact key files ([], [])

end CitationGenerator

namespace PageClassifier

/-- The six section categories of PageClassifier.__init__ (line 24). -/
def categories : List PyStr :=
  ["introduction".data, "related works".data, "methods".data,
   "results".data, "conclusions".data, "appendix".data]

/-- Model of Python str.split on a newline: the lines of the response,
empty pieces kept. -/
def splitLines : PyStr → List PyStr
  | [] => [[]]
  | c :: rest =>
    let r := splitLines rest
    if c = '\n' then [] :: r
    else (c :: r.headD []) :: r.tail

/-- Maximal digit runs of a line, the model of re.findall of one or more
digits; cur holds the digits of the current run in reverse. -/
def findNumbersAux : PyStr → PyStr → List PyStr
  | [], cur => if cur = [] then [] else [cur.reverse]
  | c :: rest, cur =>
    if c.isDigit then findNumbersAux rest (c :: cur)
    else if cur = [] then findNumbersAux rest []
    else cur.reverse :: findNumbersAux rest []

/-- All maximal digit runs of a line, left to right. -/
def findNumbers (line : PyStr) : List PyStr := findNumbersAux line []

/-- Model of PageClassifier._get_target_pages (lines 100 to 118): collect
every digit run of every response line that starts, lowercased, with the
lowercased category name. -/
def get_target_pages (classificationResult category : PyStr) : List PyStr :=
  (splitLines classificationResult).foldl (fun acc line =>
    if (lowerL category).isPrefixOf (lowerL line) then acc ++ findNumbers line else acc) []

/-- The key spellings tried by PageClassifier._get_page_content (lines 136
to 140). -/
def possibleKeys (pageNum : PyStr) : List PyStr :=
  ["Page ".data ++ pageNum,
   '*' :: ("Page ".data ++ pageNum) ++ ['*'],
   ("Page ".data ++ pageNum) ++ [':']]

/-- Model of PageClassifier._get_page_content: the content stored under the
first key spelling present in the extracted data. -/
def get_page_content (pageNum : PyStr) (extracted : List (PyStr × PyStr)) : Option PyStr :=
  (possibleKeys pageNum).findSome? (fun k => lookupL extracted k)

/-- Stable insertion into a list sorted by the numeric key, placing the new
element after existing elements of strictly smaller or equal key. -/
def insertByInt (x : PyStr) : List PyStr → List PyStr
  | [] => [x]
  | y :: rest => if parseDec y < parseDec x then y :: insertByInt x rest else x :: y :: rest

/-- Model of Python sorted with key int: stable ascending sort by numeric
value (line 207). -/
def sortByInt (l : List PyStr) : List PyStr := l.foldr insertByInt []

/-- Rendered page block of line 211. -/
def renderPage (pageNum content : PyStr) : PyStr :=
  "Page ".data ++ pageNum ++ ":\n".data ++ content ++ ['\n']

/-- Per-category content pieces of classify_pages lines 206 to 213: pages
in ascending numeric order, each resolved against the extracted data; a
page absent from the data is logged and skipped. -/
def categoryContent (extracted : List (PyStr × PyStr)) (cl category : PyStr) : List PyStr :=
  (sortByInt (get_target_pages cl category)).filterMap
    (fun p => (get_page_content p extracted).map (renderPage p))

/-- Model of PageClassifier.classify_pages (lines 200 to 219): per category
the joined content, categories with no resolved page omitted. -/
def classify_pages (extracted : List (PyStr × PyStr)) (cl : PyStr) : List (PyStr × PyStr) :=
  categories.foldl (fun acc category =>
    let content := categoryContent extracted cl category
    if content = [] then acc
    else acc ++ [(category, intercalateL "\n\n".data content)]) []

/-- The pages of a category that are mentioned in the response and present
in the extracted data: exactly the pages whose block reaches the category
file. -/
def resolvedPages (extracted : List (PyStr × PyStr)) (cl category : PyStr) : List PyStr :=
  (sortByInt (get_target_pages cl category)).filter
    (fun p => (get_page_content p extracted).isSome)

theorem mem_insertByInt (x : PyStr) :
    ∀ (l : List PyStr) (a : PyStr), a ∈ insertByInt x l ↔ a = x ∨ a ∈ l := by
  intro l
  induction l with
  | nil => intro a; simp [insertByInt]
  | cons y rest ih =>
    intro a
    unfold insertByInt
    by_cases h : parseDec y < parseDec x
    · simp only [if_pos h, List.mem_cons, ih a]
      tauto
    · simp only [if_neg h, List.mem_cons]

theorem mem_sortByInt : ∀ (l : List PyStr) (a : PyStr), a ∈ sortByInt l ↔ a ∈ l := by
  intro l
  induction l with
  | nil => intro a; simp [sortByInt]
  | cons y rest ih =>
    intro a
    unfold sortByInt
    rw [List.foldr_cons, mem_insertByInt]
    rw [show List.foldr insertByInt [] rest = sortByInt rest from rfl, ih a]
    simp

/-- Counterexample to claim C6 as stated: a response listing page one under
both the introduction and the methods lines puts the mentioned-and-present
page one into two distinct categories of resolved sets, so the resolved
sets do not partition the mentioned pages. -/
theorem spec2proof_C6_counterexample :
    "1".data ∈ resolvedPages [("Page 1".data, "intro text".data)]
        "Introduction: 1\nMethods: 1".data "introduction".data ∧
    "1".data ∈ resolvedPages [("Page 1".data, "intro text".data)]
        "Introduction: 1\nMethods: 1".data "methods".data ∧
    ("introduction".data : PyStr) ≠ "methods".data := by
  decide

/-- Claim C6 as amended: for every response and input page map, a page is
in a category's resolved set exactly when it is mentioned on a line of that
category and its content is found in the input map; hence a page mentioned
for a category but absent from the input map is skipped (it reaches no
resolved set for lack of content) and classification proceeds without
failure; no cross-category exclusivity is enforced, so a page listed under
several category lines resolves in each of them and a page listed only
under the unrelated line resolves in none. -/
theorem spec2proof_C6 (extracted : List (PyStr × PyStr)) (cl category p : PyStr) :
    p ∈ resolvedPages extracted cl category ↔
      p ∈ get_target_pages cl category ∧ (get_page_content p extracted).isSome = true := by
  unfold resolvedPages
  rw [List.mem_filter, mem_sortByInt]

end PageClassifier

namespace ChapterGenerator

/-- Model of category.lower().replace(' ', '_') used for section and
chapter file names. -/
def catSlug (category : PyStr) : PyStr :=
  (lowerL category).map (fun c => if c = ' ' then '_' else c)

/-- Model of ChapterGenerator._generate_single_chapter_task
(src/src/processors/chapter_generator.py lines 166 to 210).  The file
system is the read oracle readF; the content capability is the oracle pair
genChapter (generate_chapter, returning nothing on failure) and expand
(check_and_expand_chapter, which already falls back to the draft), and
polish models polish_thesis_content.  The result is the returned pair and
the list of files written. -/
def generate_single_chapter_task (readF : PyStr → Option PyStr)
    (genChapter : PyStr → PyStr → Option PyStr)
    (expand : PyStr → PyStr → PyStr) (polish : PyStr → PyStr)
    (workingDir category : PyStr) : (PyStr × Option PyStr) × List (PyStr × PyStr) :=
  match readF (pathJoin workingDir (catSlug category ++ "_section.txt".data)) with
  | none => ((category, none), [])
  | some raw =>
    let content := pyStrip raw
    if content = [] then ((category, none), [])
    else
      match genChapter content category with
      | none => ((category, none), [])
      | some draft =>
        let expanded :=
          if category ∈ ["methods".data, "results".data] then expand content draft else draft
        let polished := polish expanded
        ((category, some polished),
          [(pathJoin workingDir (catSlug category ++ "_chapter.md".data), polished)])

/-- Claim C7: when the section file of a category is absent, or its content
stripped of whitespace is empty, the chapter-generation task writes no file
and returns the skip result, not an error. -/
theorem spec2proof_C7 (readF : PyStr → Option PyStr)
    (genChapter : PyStr → PyStr → Option PyStr)
    (expand : PyStr → PyStr → PyStr) (polish : PyStr → PyStr)
    (workingDir category : PyStr)
    (h : readF (pathJoin workingDir (catSlug category ++ "_section.txt".data)) = none ∨
      ∃ raw, readF (pathJoin workingDir (catSlug category ++ "_section.txt".data)) = some raw ∧
        pyStrip raw = []) :
    generate_single_chapter_task readF genChapter expand polish workingDir category
      = ((category, none), []) := by
  rcases h with h | ⟨raw, hr, hs⟩
  · unfold generate_single_chapter_task
    rw [h]
  · unfold generate_single_chapter_task
    rw [hr]
    simp [hs]

/-- Witness for claim C7: a run whose working directory holds a section
file of only blanks for the methods category is skipped with no write. -/
theorem spec2proof_C7_witness :
    generate_single_chapter_task
        (fun p => if p = pathJoin "work".data (catSlug "methods".data ++ "_section.txt".data)
          then some "  \n ".data else none)
        (fun _ _ => none) (fun _ d => d) (fun d => d) "work".data "methods".data
      = (("methods".data, none), []) :=
  spec2proof_C7 _ _ _ _ "work".data "methods".data
    (Or.inr ⟨"  \n ".data, by decide, by decide⟩)

end ChapterGenerator

namespace GeminiAPI

/-- Python substring membership: some suffix of the text starts with the
pattern. -/
def containsSub (pat : PyStr) : PyStr → Bool
  | [] => pat.isPrefixOf []
  | c :: rest => pat.isPrefixOf (c :: rest) || containsSub pat rest

/-- Retryability test of GeminiAPI.generate_content (src/gemini_api.py line
73): the message holds the server-disconnected text, or holds the word
timeout after lowering. -/
def isRetryableMsg (msg : PyStr) : Bool :=
  containsSub "Server disconnected".data msg || containsSub "timeout".data (lowerL msg)

/-- Outcome of one underlying request: a response whose text may be empty,
or a raised error with a message. -/
inductive GeminiOutcome where
  | response (text : PyStr)
  | failure (msg : PyStr)

/-- Body of one attempt (lines 59 to 77): a response returns its text, or
nothing when the text is empty; a retryable error re-raises so tenacity can
retry; any other error returns nothing immediately. -/
def attemptBody (call : GeminiOutcome) : Except PyStr (Option PyStr) :=
  match call with
  | .response t => .ok (if t = [] then none else some t)
  | .failure msg => if isRetryableMsg msg then .error msg else .ok none

/-- Model of tenacity wait_exponential with multiplier one, minimum four
and maximum ten, at the given attempt number. -/
def waitExponential (attempt : Nat) : Nat := max 4 (min (2 ^ attempt) 10)

/-- Model of the tenacity retry driver with stop_after_attempt 3 and a
retry_error_callback returning nothing: run attempts while the body
re-raises, sleeping the exponential wait between attempts, and give back
the result, the number of attempts made and the waits slept. -/
def retryLoop (calls : Nat → GeminiOutcome) :
    Nat → Nat → List Nat → (Option PyStr × Nat × List Nat)
  | 0, attempt, waits => (none, attempt, waits)
  | fuel + 1, attempt, waits =>
    match attemptBody (calls attempt) with
    | .ok r => (r, attempt, waits)
    | .error _ =>
      if fuel = 0 then (none, attempt, waits)
      else retryLoop calls fuel (attempt + 1) (waits ++ [waitExponential attempt])

/-- Model of GeminiAPI.generate_content under its retry decoration: up to
three attempts starting at attempt one. -/
def generate_content (calls : Nat → GeminiOutcome) : Option PyStr × Nat × List Nat :=
  retryLoop calls 3 1 []

/-- Claim C9: three retryable failures exhaust the three attempts with the
two exponential waits in between and yield null instead of raising; a
non-retryable failure on the first attempt yields null immediately with no
retry and no wait; every wait is at least four and at most ten seconds. -/
theorem spec2proof_C9 :
    (∀ calls : Nat → GeminiOutcome,
      (∀ i, 1 ≤ i → i ≤ 3 → ∃ m, calls i = .failure m ∧ isRetryableMsg m = true) →
      generate_content calls = (none, 3, [waitExponential 1, waitExponential 2])) ∧
    (∀ (calls : Nat → GeminiOutcome) (m : PyStr),
      calls 1 = .failure m → isRetryableMsg m = false →
      generate_content calls = (none, 1, [])) ∧
    (∀ n, 4 ≤ waitExponential n ∧ waitExponential n ≤ 10) := by
  refine ⟨?_, ?_, ?_⟩
  · intro calls h
    obtain ⟨m1, hc1, hr1⟩ := h 1 (by omega) (by omega)
    obtain ⟨m2, hc2, hr2⟩ := h 2 (by omega) (by omega)
    obtain ⟨m3, hc3, hr3⟩ := h 3 (by omega) (by omega)
    simp [generate_content, retryLoop, attemptBody, hc1, hc2, hc3, hr1, hr2, hr3]
  · intro calls m hc hr
    simp [generate_content, retryLoop, attemptBody, hc, hr]
  · intro n
    unfold waitExponential
    constructor
    · exact le_max_left 4 _
    · exact max_le (by norm_num) (min_le_right _ _)

/-- Witness for claim C9: a run whose every request raises a timeout error
exhausts three attempts and returns null, and a run whose first request
raises a quota error returns null on the first attempt. -/
theorem spec2proof_C9_witness :
    generate_content (fun _ => .failure "Request timeout".data)
        = (none, 3, [waitExponential 1, waitExponential 2]) ∧
    generate_content (fun _ => .failure "quota exceeded".data) = (none, 1, []) :=
  ⟨spec2proof_C9.1 (fun _ => .failure "Request timeout".data)
      (fun i _ _ => ⟨"Request timeout".data, rfl, by decide⟩),
    spec2proof_C9.2.1 (fun _ => .failure "quota exceeded".data)
      "quota exceeded".data rfl (by decide)⟩

end GeminiAPI
